import Mathlib

/-!
Verification of the record/settings synchronization and view-projection layer of
the Registro-Jefes-de-turno application.

The definitions below are a shallow embedding of the TypeScript source:

* `src/services/storageService.ts` — the record store and vocabulary registry
  (save, delete, rename, subscription delivery, vocabulary caches);
* `App.tsx` — filtering and pagination of the record list
  (`filteredRecords`, `ITEMS_PER_PAGE`, `paginatedRecords`, `totalPages`);
* `src/components/Dashboard.tsx` — the incident analytics aggregation
  (`incidentsData`);
* `constants.ts` — the built-in comment vocabulary (`COMMON_COMMENTS`).

JavaScript strings are modelled as Lean `String`; the relational operators
`<`, `<=`, `>=` on JS strings compare UTF-16 code units, which for the
basic-multilingual-plane text handled by this application coincides with
code-point order, embedded below as `jsStrLtB`/`jsLeB`.  Firestore's
`arrayUnion`/`arrayRemove` field transforms and `setDoc`/`updateDoc`
document semantics are embedded as list operations.
-/

namespace RegistroJefes

/-! ### JavaScript string comparison

JS `s < t` compares strings lexicographically by UTF-16 code unit. -/

/-- JS `<` on strings: lexicographic comparison of code units. -/
def jsStrLtB : List Char → List Char → Bool
  | _, [] => false
  | [], _ :: _ => true
  | a :: as, b :: bs =>
    if a.toNat < b.toNat then true
    else if b.toNat < a.toNat then false
    else jsStrLtB as bs

/-- JS `s <= t` on strings (equivalently `!(t < s)`). -/
def jsLeB (s t : String) : Bool := ! jsStrLtB t.data s.data

/-- Propositional form of `jsLeB`. -/
def jsLe (s t : String) : Prop := jsLeB s t = true

instance : DecidableRel jsLe := fun s t => by
  unfold jsLe; infer_instance

theorem jsStrLtB_asymm : ∀ x y : List Char, jsStrLtB x y = true → jsStrLtB y x = false := by
  intro x
  induction x with
  | nil => intro y _; cases y <;> rfl
  | cons a as ih =>
    intro y h
    cases y with
    | nil => simp [jsStrLtB] at h
    | cons b bs =>
      simp only [jsStrLtB] at h ⊢
      by_cases hab : a.toNat < b.toNat
      · have hba : ¬ b.toNat < a.toNat := by omega
        simp [hab, hba]
      · by_cases hba : b.toNat < a.toNat
        · simp [hab, hba] at h
        · simp [hab, hba] at h ⊢
          exact ih bs h

theorem jsStrLtB_connex :
    ∀ x y z : List Char, jsStrLtB x z = true → jsStrLtB x y = true ∨ jsStrLtB y z = true := by
  intro x
  induction x with
  | nil =>
    intro y z h
    cases z with
    | nil => simp [jsStrLtB] at h
    | cons c cs =>
      cases y with
      | nil => right; exact h
      | cons b bs => left; rfl
  | cons a as ih =>
    intro y z h
    cases z with
    | nil => simp [jsStrLtB] at h
    | cons c cs =>
      cases y with
      | nil => right; rfl
      | cons b bs =>
        simp only [jsStrLtB] at h ⊢
        by_cases hab : a.toNat < b.toNat
        · left; simp [hab]
        · by_cases hbc : b.toNat < c.toNat
          · right; simp [hbc]
          · -- b ≤ a and c ≤ b, hence c ≤ a
            have hca : ¬ a.toNat < c.toNat := by omega
            by_cases hca2 : c.toNat < a.toNat
            · simp [hca, hca2] at h
            · have hac : a.toNat = c.toNat := by omega
              simp [hca, hca2] at h
              rcases ih bs cs h with hl | hr
              · left
                have h1 : ¬ b.toNat < a.toNat := by omega
                simp [hab, h1, hl]
              · right
                have h1 : ¬ c.toNat < b.toNat := by omega
                simp [hbc, h1, hr]

instance : IsTotal String jsLe := by
  constructor
  intro s t
  unfold jsLe jsLeB
  by_cases h : jsStrLtB t.data s.data = true
  · right
    have := jsStrLtB_asymm _ _ h
    simp [this]
  · left
    simp at h
    simp [h]

instance : IsTrans String jsLe := by
  constructor
  intro s t u hst htu
  unfold jsLe jsLeB at *
  simp only [Bool.not_eq_true', Bool.not_eq_false] at hst htu ⊢
  by_cases h : jsStrLtB u.data s.data = true
  · have := jsStrLtB_connex u.data t.data s.data h
    cases this with
    | inl hl => rw [hl] at htu; cases htu
    | inr hr => rw [hr] at hst; cases hst
  · simpa using h

/-- JS `Array.prototype.sort()` with default comparator on an array of strings:
a stable sort by UTF-16 code-unit order. -/
def jsSort (l : List String) : List String := List.insertionSort jsLe l

/-! ### Data model (`types.ts`)

The TS enums `MachineType`, `ShiftType`, `BossType` are string-valued; they are
embedded as `String`.  `timestamp` is `Date.now()`, a non-negative integer. -/

/-- One production event, from `interface ProductionRecord` in `types.ts`. -/
structure ProductionRecord where
  id : String
  timestamp : Nat
  date : String
  machine : String
  meters : Nat
  changesCount : Nat
  changesComment : String
  shift : String
  boss : String
  operator : String
deriving Repr, DecidableEq

/-- The filter panel state, from `interface FilterState` in `types.ts`
(the current five-field variant used by `App.tsx`). -/
structure FilterState where
  startDate : String
  endDate : String
  machine : String
  boss : String
  operator : String
deriving Repr, DecidableEq

/-! ### View projection: filtering (`App.tsx`, `filteredRecords`) -/

/-- The per-record filter predicate of `App.tsx` lines 74–83: each dimension is
unconstrained when its filter field is the empty string (JS falsy), the date
bounds use JS `>=`/`<=` string comparison, and the dimensions are ANDed. -/
def matchesFilter (f : FilterState) (r : ProductionRecord) : Bool :=
  (((f.startDate == "") || jsLeB f.startDate r.date) &&
   ((f.endDate == "") || jsLeB r.date f.endDate)) &&
  ((f.machine == "") || (r.machine == f.machine)) &&
  ((f.boss == "") || (r.boss == f.boss)) &&
  ((f.operator == "") || (r.operator == f.operator))

/-- `records.filter(...)` of `App.tsx`. -/
def filteredRecords (recs : List ProductionRecord) (f : FilterState) : List ProductionRecord :=
  recs.filter (matchesFilter f)

/-- The all-empty filter, the initial `filters` state of `App.tsx`. -/
def emptyFilter : FilterState := ⟨"", "", "", "", ""⟩

/-! ### View projection: pagination (`App.tsx`) -/

/-- `const ITEMS_PER_PAGE = 15` (`App.tsx` line 12). -/
def ITEMS_PER_PAGE : Nat := 15

/-- `filteredRecords.slice(start, start + ITEMS_PER_PAGE)` with
`start = (currentPage - 1) * ITEMS_PER_PAGE` (`App.tsx` lines 92–95). -/
def paginatedRecords (recs : List ProductionRecord) (currentPage : Nat) : List ProductionRecord :=
  (recs.drop ((currentPage - 1) * ITEMS_PER_PAGE)).take ITEMS_PER_PAGE

/-- `Math.ceil(filteredRecords.length / ITEMS_PER_PAGE)` (`App.tsx` line 91). -/
def totalPages (recs : List ProductionRecord) : Nat :=
  (recs.length + ITEMS_PER_PAGE - 1) / ITEMS_PER_PAGE

/-- The page count as displayed: `totalPages || 1` (`App.tsx` line 528). -/
def displayedTotalPages (recs : List ProductionRecord) : Nat :=
  if totalPages recs = 0 then 1 else totalPages recs

/-! ### Vocabulary registry (`storageService.ts`, `constants.ts`)

`COMMON_OPERATORS` is unused by the claims below; the comment side carries the
built-in defaults. -/

/-- The built-in comment vocabulary, `COMMON_COMMENTS` in `constants.ts`. -/
def COMMON_COMMENTS : List String :=
  ["Antivaho", "NT", "No tejido", "Montado", "Pedidos", "Cambio carro", "Bio", "PApel"]

/-- The comments cache after a backend snapshot (`initCommentsListener`,
`storageService.ts` lines 48–55): when the settings document exists the cache
becomes `(data.list || []).sort()`; when it does not, the defaults are written
back and cached.  `docData = none` models the missing document, `some l` the
document whose `list` field holds `l`. -/
def commentsCacheAfterSnapshot (docData : Option (List String)) : List String :=
  match docData with
  | some l => jsSort l
  | none => COMMON_COMMENTS

/-- The comment list handed to settings subscribers and returned by
`getAvailableComments` (`storageService.ts` lines 38–42 and 102–104):
the cache when non-empty, otherwise the built-in defaults. -/
def displayedComments (cache : List String) : List String :=
  if cache.length > 0 then cache else COMMON_COMMENTS

/-- Spec-side definition, for comparison only — the merge rule stated by the
specification (P5): the sorted, deduplicated union of the built-in defaults
and the custom entries.  (`List.dedup` keeps the last occurrence of each
duplicate; after sorting the resulting set is the same either way.) -/
def specMergedVocabulary (defaults custom : List String) : List String :=
  jsSort ((defaults ++ custom).dedup)

/-! ### Record store (`storageService.ts`) -/

/-- Firestore `setDoc(doc(db, RECORDS_COLLECTION, record.id), record)` as seen
through the mirrored collection (`saveRecord`, line 113): a keyed write that
replaces the document with this identifier, or creates it. -/
def setDocRecord (store : List ProductionRecord) (rec : ProductionRecord) : List ProductionRecord :=
  if store.any (fun r => r.id == rec.id)
  then store.map (fun r => if r.id == rec.id then rec else r)
  else store ++ [rec]

/-- A sequence of `save` calls applied to the record collection. -/
def saveSequence (store : List ProductionRecord) (recs : List ProductionRecord) : List ProductionRecord :=
  recs.foldl setDocRecord store

/-- `timestamp`-descending comparison used by the record subscription's
`orderBy('timestamp', 'desc')` clause. -/
def tsGE (a b : ProductionRecord) : Prop := b.timestamp ≤ a.timestamp

instance : DecidableRel tsGE := fun a b => Nat.decLe b.timestamp a.timestamp

instance : IsTotal ProductionRecord tsGE :=
  ⟨fun a b => Nat.le_total b.timestamp a.timestamp⟩

instance : IsTrans ProductionRecord tsGE :=
  ⟨fun _ _ _ hab hbc => Nat.le_trans hbc hab⟩

/-- The record list a snapshot of `subscribeToRecords` delivers
(`storageService.ts` lines 230–251): the backend collection in the order of
`query(collection(db, RECORDS_COLLECTION), orderBy('timestamp', 'desc'))`,
pushed document by document into the callback's list. -/
def subscribeSnapshotRecords (backend : List ProductionRecord) : List ProductionRecord :=
  List.insertionSort tsGE backend

/-- The observable outcome of one `deleteRecord(id)` call: the settled state of
the returned promise, whether the error alert fired, and how many `deleteDoc`
calls were made. -/
structure DeleteOutcome where
  result : Except String Unit
  alerted : Bool
  backendCalls : Nat

/-- `deleteRecord` (`storageService.ts` lines 156–163): a single `deleteDoc`
call inside `try/catch`; the catch logs and alerts but does not rethrow, so the
promise resolves either way.  `backend` is the outcome of the one `deleteDoc`
call. -/
def deleteRecord (backend : Except String Unit) : DeleteOutcome :=
  match backend with
  | Except.ok _ => ⟨Except.ok (), false, 1⟩
  | Except.error _ => ⟨Except.ok (), true, 1⟩

/-! ### Firestore field transforms and the vocabulary side effects of `save` -/

/-- Firestore `arrayUnion(v)` on a list field: appends `v` at the end when the
exact value is not already present. -/
def arrayUnion (l : List String) (v : String) : List String :=
  if v ∈ l then l else l ++ [v]

/-- Firestore `arrayRemove(v)` on a list field: removes every element equal to
`v`. -/
def arrayRemove (l : List String) (v : String) : List String :=
  l.filter (fun x => x != v)

/-- `const testOperatorsToRemove = ["Operario 1", "Operario 2"]`
(`saveRecord`, `storageService.ts` line 128). -/
def testOperatorsToRemove : List String := ["Operario 1", "Operario 2"]

/-- The comment-vocabulary side effect of `saveRecord` (`storageService.ts`
lines 116–122): when the record's comment is non-empty, `arrayUnion` it into
the settings document; if the document is missing (`updateDoc` fails with
`not-found`), create it as `{ list: [comment] }`. -/
def saveCommentsEffect (commentsDoc : Option (List String)) (comment : String) :
    Option (List String) :=
  if comment = "" then commentsDoc
  else
    match commentsDoc with
    | none => some [comment]
    | some l => some (arrayUnion l comment)

/-- The operator-vocabulary side effect of `saveRecord` (`storageService.ts`
lines 124–145).  A non-empty test-name operator is `arrayUnion`ed (with no
`not-found` recovery, so a missing document propagates the error).  A
non-empty non-test operator is `arrayUnion`ed (creating the document on
`not-found`), and then — if the local operators cache contains either test
name — both test names are `arrayRemove`d from the document. -/
def saveOperatorsEffect (localOperatorsCache : List String)
    (operatorsDoc : Option (List String)) (op : String) :
    Except Unit (Option (List String)) :=
  if op = "" then Except.ok operatorsDoc
  else if op ∈ testOperatorsToRemove then
    match operatorsDoc with
    | some l => Except.ok (some (arrayUnion l op))
    | none => Except.error ()
  else
    let l1 := match operatorsDoc with
      | none => [op]
      | some l => arrayUnion l op
    if localOperatorsCache.any (fun o => decide (o ∈ testOperatorsToRemove)) then
      Except.ok (some (testOperatorsToRemove.foldl arrayRemove l1))
    else Except.ok (some l1)

/-! ### Rename cascade (`storageService.ts`, `renameCustomComment` /
`renameCustomOperator`) -/

/-- Replace the `changesComment` field of a record. -/
def setComment (r : ProductionRecord) (c : String) : ProductionRecord :=
  ⟨r.id, r.timestamp, r.date, r.machine, r.meters, r.changesCount, c, r.shift, r.boss, r.operator⟩

/-- Replace the `operator` field of a record. -/
def setOperatorField (r : ProductionRecord) (op : String) : ProductionRecord :=
  ⟨r.id, r.timestamp, r.date, r.machine, r.meters, r.changesCount, r.changesComment, r.shift,
   r.boss, op⟩

/-- `renameCustomComment(oldName, newName)` (`storageService.ts` lines
175–192): a no-op when either name is empty (JS falsy) or the names are equal;
otherwise `arrayRemove(oldName)` then `arrayUnion(newName)` on the vocabulary
document, and a batch update setting `changesComment` to `newName` on every
record the query `where('changesComment', '==', oldName)` matched. -/
def renameCustomComment (oldName newName : String) (vocab : List String)
    (recs : List ProductionRecord) : List String × List ProductionRecord :=
  if oldName = "" ∨ newName = "" ∨ oldName = newName then (vocab, recs)
  else
    (arrayUnion (arrayRemove vocab oldName) newName,
     recs.map (fun r => if r.changesComment == oldName then setComment r newName else r))

/-- `renameCustomOperator(oldName, newName)` (`storageService.ts` lines
204–221): same shape as `renameCustomComment`, on the `operator` field. -/
def renameCustomOperator (oldName newName : String) (vocab : List String)
    (recs : List ProductionRecord) : List String × List ProductionRecord :=
  if oldName = "" ∨ newName = "" ∨ oldName = newName then (vocab, recs)
  else
    (arrayUnion (arrayRemove vocab oldName) newName,
     recs.map (fun r => if r.operator == oldName then setOperatorField r newName else r))

/-! ### Incident analytics (`Dashboard.tsx`, `incidentsData`)

The JS normalization pipeline is
`comment.trim().normalize("NFD").replace(/[̀-ͯ]/g, "").toLowerCase()`.
`stripDiacritic` embeds the composite effect of NFD decomposition followed by
removal of the combining marks U+0300–U+036F for the precomposed Latin letters
that occur in this application's Spanish free text; after stripping, the
remaining letters are ASCII, where `Char.toLower` agrees with JS
`toLowerCase()`. -/

/-- NFD decomposition followed by combining-mark removal, per character. -/
def stripDiacritic (c : Char) : Char :=
  match c with
  | 'á' => 'a' | 'à' => 'a' | 'â' => 'a' | 'ä' => 'a' | 'ã' => 'a'
  | 'é' => 'e' | 'è' => 'e' | 'ê' => 'e' | 'ë' => 'e'
  | 'í' => 'i' | 'ì' => 'i' | 'î' => 'i' | 'ï' => 'i'
  | 'ó' => 'o' | 'ò' => 'o' | 'ô' => 'o' | 'ö' => 'o' | 'õ' => 'o'
  | 'ú' => 'u' | 'ù' => 'u' | 'û' => 'u' | 'ü' => 'u'
  | 'ñ' => 'n' | 'ç' => 'c'
  | 'Á' => 'A' | 'À' => 'A' | 'Â' => 'A' | 'Ä' => 'A' | 'Ã' => 'A'
  | 'É' => 'E' | 'È' => 'E' | 'Ê' => 'E' | 'Ë' => 'E'
  | 'Í' => 'I' | 'Ì' => 'I' | 'Î' => 'I' | 'Ï' => 'I'
  | 'Ó' => 'O' | 'Ò' => 'O' | 'Ô' => 'O' | 'Ö' => 'O' | 'Õ' => 'O'
  | 'Ú' => 'U' | 'Ù' => 'U' | 'Û' => 'U' | 'Ü' => 'U'
  | 'Ñ' => 'N' | 'Ç' => 'C'
  | _ => c

/-- The normalized grouping key of `Dashboard.tsx` lines 130 and 137–140:
diacritic stripping followed by case folding. -/
def normalizeKey (s : String) : String :=
  String.mk (s.data.map (fun c => (stripDiacritic c).toLower))

/-- JS `String.prototype.trim()`: strip leading and trailing whitespace. -/
def jsTrim (s : String) : String :=
  String.mk (((s.data.dropWhile Char.isWhitespace).reverse.dropWhile Char.isWhitespace).reverse)

/-- One aggregation bucket: `{ count, displayName }` (`Dashboard.tsx` line 125). -/
structure IncidentBucket where
  count : Nat
  displayName : String
deriving Repr, DecidableEq

/-- `canonicalMap[key]` (`Dashboard.tsx` lines 128–132): the object maps each
normalized key to the vocabulary comment producing it, later entries
overwriting earlier ones, so a lookup returns the *last* matching entry. -/
def canonicalFor (availableComments : List String) (key : String) : Option String :=
  (availableComments.filter (fun c => normalizeKey c == key)).getLast?

/-- JS `canonicalName || rawComment`: the canonical name unless it is absent or
falsy (the empty string). -/
def jsOrElse (o : Option String) (d : String) : String :=
  match o with
  | some c => if c = "" then d else c
  | none => d

/-- The update applied to an existing bucket (`Dashboard.tsx` lines 150–156):
overwrite `displayName` when a truthy canonical name exists, then increment
`count`. -/
def updateGroup (canon : Option String) (g : IncidentBucket) : IncidentBucket :=
  match canon with
  | some c => if c = "" then ⟨g.count + 1, g.displayName⟩ else ⟨g.count + 1, c⟩
  | none => ⟨g.count + 1, g.displayName⟩

/-- Processing one trimmed raw comment into the insertion-ordered `groups`
object (`Dashboard.tsx` lines 137–156). -/
def addToGroups (avail : List String) (groups : List (String × IncidentBucket))
    (rawComment : String) : List (String × IncidentBucket) :=
  let key := normalizeKey rawComment
  let canon := canonicalFor avail key
  match List.lookup key groups with
  | none => groups ++ [(key, ⟨1, jsOrElse canon rawComment⟩)]
  | some _ => groups.map (fun kv => if kv.1 = key then (kv.1, updateGroup canon kv.2) else kv)

/-- The guard `r.changesComment && r.changesComment.trim().length > 1`
(`Dashboard.tsx` line 135). -/
def validComment (r : ProductionRecord) : Bool :=
  (r.changesComment != "") && decide ((jsTrim r.changesComment).length > 1)

/-- The body of the `records.forEach` loop (`Dashboard.tsx` lines 134–157). -/
def stepIncidents (avail : List String) (gs : List (String × IncidentBucket))
    (r : ProductionRecord) : List (String × IncidentBucket) :=
  if validComment r then addToGroups avail gs (jsTrim r.changesComment) else gs

/-- The fully built `groups` object of `incidentsData`. -/
def incidentsGroups (avail : List String) (records : List ProductionRecord) :
    List (String × IncidentBucket) :=
  records.foldl (stepIncidents avail) []

/-- The number of raw comments counted into the bucket keyed `k`. -/
def bucketCount (gs : List (String × IncidentBucket)) (k : String) : Nat :=
  match List.lookup k gs with
  | some b => b.count
  | none => 0

/-- The comparator `(a, b) => b.value - a.value` as an ordering relation. -/
def countGE (a b : String × Nat) : Prop := b.2 ≤ a.2

instance : DecidableRel countGE := fun a b => Nat.decLe b.2 a.2

/-- `incidentsData` (`Dashboard.tsx` lines 124–164): the buckets as
`(displayName, count)` pairs, sorted by descending count, truncated to the
top 5. -/
def incidentsData (avail : List String) (records : List ProductionRecord) :
    List (String × Nat) :=
  (List.insertionSort countGE
    ((incidentsGroups avail records).map (fun kv => (kv.2.displayName, kv.2.count)))).take 5

/-! ### Theorems -/

theorem mem_arrayRemove (l : List String) (v x : String) :
    x ∈ arrayRemove l v ↔ x ∈ l ∧ x ≠ v := by
  simp [arrayRemove, List.mem_filter]

theorem mem_arrayUnion (l : List String) (v x : String) :
    x ∈ arrayUnion l v ↔ x ∈ l ∨ x = v := by
  unfold arrayUnion
  by_cases h : v ∈ l
  · simp only [h, if_true]
    constructor
    · exact Or.inl
    · rintro (hx | rfl)
      · exact hx
      · exact h
  · simp [h]

theorem pages_cover (k : Nat) :
    ∀ (n : Nat) (l : List ProductionRecord), l.length ≤ n * k →
      (List.range n).flatMap (fun i => (l.drop (i * k)).take k) = l := by
  intro n
  induction n with
  | zero =>
    intro l h
    simp only [Nat.zero_mul, Nat.le_zero, List.length_eq_zero] at h
    simp [h]
  | succ n ih =>
    intro l h
    rw [List.range_succ_eq_map]
    rw [List.flatMap_cons, List.flatMap_map]
    have hrest : (List.range n).flatMap (fun i => (l.drop ((i + 1) * k)).take k)
        = (List.range n).flatMap (fun i => ((l.drop k).drop (i * k)).take k) := by
      apply List.flatMap_congr
      intro i _
      rw [List.drop_drop]
      congr 1
      rw [Nat.succ_mul, Nat.add_comm]
    simp only [Nat.zero_mul, List.drop_zero]
    have hlen : (l.drop k).length ≤ n * k := by
      have h2 : (n + 1) * k = n * k + k := Nat.succ_mul n k
      simp only [List.length_drop]
      omega
    rw [hrest, ih (l.drop k) hlen]
    exact List.take_append_drop k l

/-- C8: concatenating all pages in order (page 1 through `totalPages`)
reproduces the filtered list exactly, the page count is `⌈N / 15⌉`
(characterized by the two inequalities below), and the displayed page count
replaces 0 by 1. -/
theorem pagination_covers_C8 (recs : List ProductionRecord) :
    ((List.range (totalPages recs)).flatMap (fun i => paginatedRecords recs (i + 1)) = recs)
    ∧ recs.length ≤ ITEMS_PER_PAGE * totalPages recs
    ∧ ITEMS_PER_PAGE * totalPages recs < recs.length + ITEMS_PER_PAGE
    ∧ displayedTotalPages recs = max (totalPages recs) 1 := by
  refine ⟨?_, ?_, ?_, ?_⟩
  · have h : recs.length ≤ totalPages recs * ITEMS_PER_PAGE := by
      unfold totalPages ITEMS_PER_PAGE
      omega
    calc (List.range (totalPages recs)).flatMap (fun i => paginatedRecords recs (i + 1))
        = (List.range (totalPages recs)).flatMap
            (fun i => (recs.drop (i * ITEMS_PER_PAGE)).take ITEMS_PER_PAGE) := by
          apply List.flatMap_congr
          intro i _
          unfold paginatedRecords
          simp
      _ = recs := pages_cover ITEMS_PER_PAGE (totalPages recs) recs h
  · unfold totalPages ITEMS_PER_PAGE; omega
  · unfold totalPages ITEMS_PER_PAGE; omega
  · unfold displayedTotalPages
    by_cases h : totalPages recs = 0
    · simp [h]
    · simp [h]
      omega

/-- C7: the filter is pure and idempotent, the all-empty filter returns the
record list unchanged, and a record passes the filter exactly when every
dimension is either unconstrained (empty field) or satisfied, with inclusive
date bounds. -/
theorem filter_pure_C7 :
    (∀ (recs : List ProductionRecord) (f : FilterState),
        filteredRecords (filteredRecords recs f) f = filteredRecords recs f)
    ∧ (∀ recs : List ProductionRecord, filteredRecords recs emptyFilter = recs)
    ∧ (∀ (f : FilterState) (r : ProductionRecord),
        matchesFilter f r = true ↔
          ((f.startDate = "" ∨ jsLe f.startDate r.date)
           ∧ (f.endDate = "" ∨ jsLe r.date f.endDate)
           ∧ (f.machine = "" ∨ r.machine = f.machine)
           ∧ (f.boss = "" ∨ r.boss = f.boss)
           ∧ (f.operator = "" ∨ r.operator = f.operator))) := by
  refine ⟨?_, ?_, ?_⟩
  · intro recs f
    unfold filteredRecords
    rw [List.filter_filter]
    congr 1
    funext r
    cases matchesFilter f r <;> rfl
  · intro recs
    unfold filteredRecords
    have h : (fun r => matchesFilter emptyFilter r) = (fun _ : ProductionRecord => true) := by
      funext r
      simp [matchesFilter, emptyFilter]
    show recs.filter (fun r => matchesFilter emptyFilter r) = recs
    rw [h]
    exact List.filter_true recs
  · intro f r
    unfold matchesFilter jsLe
    simp only [Bool.and_eq_true, Bool.or_eq_true, beq_iff_eq]
    tauto

/-- C1 (counterexample): with the custom list `["Zebra"]` the displayed
vocabulary is `["Zebra"]` alone — the built-in default `"Montado"` is absent,
and the result differs from the spec's sorted deduplicated union. -/
theorem vocabulary_merge_counterexample_C1 :
    displayedComments (commentsCacheAfterSnapshot (some ["Zebra"])) = ["Zebra"]
    ∧ "Montado" ∈ COMMON_COMMENTS
    ∧ "Montado" ∉ displayedComments (commentsCacheAfterSnapshot (some ["Zebra"]))
    ∧ displayedComments (commentsCacheAfterSnapshot (some ["Zebra"]))
        ≠ specMergedVocabulary COMMON_COMMENTS ["Zebra"] := by
  refine ⟨by decide, by decide, by decide, by decide⟩

/-- C1 (amended): the displayed vocabulary is the sorted custom list whenever
the custom cache is non-empty — sorted, but not a union with the defaults: a
built-in default absent from a non-empty custom store is absent from the
display.  Only when the cache is empty (or the settings document is missing)
are the built-in defaults shown. -/
theorem vocabulary_merge_C1 (l : List String) (h : l ≠ []) :
    displayedComments (commentsCacheAfterSnapshot (some l)) = jsSort l
    ∧ List.Sorted jsLe (displayedComments (commentsCacheAfterSnapshot (some l)))
    ∧ (∀ d, d ∈ COMMON_COMMENTS → d ∉ l →
        d ∉ displayedComments (commentsCacheAfterSnapshot (some l)))
    ∧ displayedComments (commentsCacheAfterSnapshot none) = COMMON_COMMENTS := by
  have hlen : (jsSort l).length = l.length := List.length_insertionSort jsLe l
  have hpos : 0 < l.length := List.length_pos.mpr h
  have hdisp : displayedComments (commentsCacheAfterSnapshot (some l)) = jsSort l := by
    show displayedComments (jsSort l) = jsSort l
    unfold displayedComments
    rw [hlen]
    simp [hpos]
  refine ⟨hdisp, ?_, ?_, ?_⟩
  · rw [hdisp]
    exact List.sorted_insertionSort jsLe l
  · intro d _ hdl
    rw [hdisp]
    intro hmem
    exact hdl ((List.mem_insertionSort jsLe).mp hmem)
  · rfl

theorem vocabulary_merge_C1_witness :
    (["Zebra"] : List String) ≠ []
    ∧ (displayedComments (commentsCacheAfterSnapshot (some ["Zebra"])) = jsSort ["Zebra"]
       ∧ List.Sorted jsLe (displayedComments (commentsCacheAfterSnapshot (some ["Zebra"])))
       ∧ (∀ d, d ∈ COMMON_COMMENTS → d ∉ (["Zebra"] : List String) →
           d ∉ displayedComments (commentsCacheAfterSnapshot (some ["Zebra"])))
       ∧ displayedComments (commentsCacheAfterSnapshot none) = COMMON_COMMENTS) :=
  ⟨by decide, vocabulary_merge_C1 ["Zebra"] (by decide)⟩

/-- C5: every snapshot delivered to record subscribers is sorted by descending
creation timestamp, and is a permutation of the backend collection. -/
theorem records_sorted_C5 (backend : List ProductionRecord) :
    List.Sorted tsGE (subscribeSnapshotRecords backend)
    ∧ (subscribeSnapshotRecords backend).Perm backend :=
  ⟨List.sorted_insertionSort tsGE backend, List.perm_insertionSort tsGE backend⟩

/-- C2 (counterexample): a failed backend delete does not reject — the promise
returned by `deleteRecord` resolves successfully even though `deleteDoc`
failed. -/
theorem delete_failure_counterexample_C2 :
    (deleteRecord (Except.error "unavailable")).result = Except.ok () := rfl

/-- C2 (amended): a backend delete failure is swallowed: the returned promise
resolves (it never rejects), the user is notified through an alert instead,
and the delete is attempted exactly once — it is not retried. -/
theorem delete_failure_swallowed_C2 (e : String) :
    (deleteRecord (Except.error e)).result = Except.ok ()
    ∧ (deleteRecord (Except.error e)).alerted = true
    ∧ (∀ b : Except String Unit, (deleteRecord b).backendCalls = 1) := by
  refine ⟨rfl, rfl, ?_⟩
  intro b
  cases b <;> rfl

theorem setDocRecord_ids (store : List ProductionRecord) (rec : ProductionRecord) :
    (setDocRecord store rec).map (fun r => r.id) =
      if store.any (fun r => r.id == rec.id)
      then store.map (fun r => r.id)
      else store.map (fun r => r.id) ++ [rec.id] := by
  unfold setDocRecord
  by_cases h : store.any (fun r => r.id == rec.id)
  · simp only [h, if_true, List.map_map]
    apply List.map_congr_left
    intro r _
    by_cases hid : r.id = rec.id
    · simp [hid]
    · simp [hid]
  · simp [h]

theorem setDocRecord_nodup (store : List ProductionRecord) (rec : ProductionRecord)
    (h : (store.map (fun r => r.id)).Nodup) :
    ((setDocRecord store rec).map (fun r => r.id)).Nodup := by
  rw [setDocRecord_ids]
  by_cases hany : store.any (fun r => r.id == rec.id)
  · simp [hany, h]
  · have hnotin : rec.id ∉ store.map (fun r => r.id) := by
      intro hmem
      rcases List.mem_map.mp hmem with ⟨r, hr, hid⟩
      exact hany (List.any_eq_true.mpr ⟨r, hr, by simp [hid]⟩)
    simp [hany, List.nodup_append, h, hnotin]

/-- C4: identifiers stay duplicate-free across any sequence of `save` calls,
the saved record (with its new field values) is always present afterwards, and
saving an existing identifier keeps the collection's size unchanged — a
replace, never a duplicate. -/
theorem save_upsert_C4 :
    (∀ (store recs : List ProductionRecord),
        (store.map (fun r => r.id)).Nodup →
        ((saveSequence store recs).map (fun r => r.id)).Nodup)
    ∧ (∀ (store : List ProductionRecord) (rec : ProductionRecord),
        rec ∈ setDocRecord store rec)
    ∧ (∀ (store : List ProductionRecord) (rec : ProductionRecord),
        store.any (fun r => r.id == rec.id) = true →
        (setDocRecord store rec).length = store.length) := by
  refine ⟨?_, ?_, ?_⟩
  · intro store recs
    induction recs generalizing store with
    | nil => intro h; exact h
    | cons rec rest ih =>
      intro h
      exact ih (setDocRecord store rec) (setDocRecord_nodup store rec h)
  · intro store rec
    unfold setDocRecord
    by_cases h : store.any (fun r => r.id == rec.id)
    · simp only [h, if_true]
      rw [List.any_eq_true] at h
      rcases h with ⟨r, hr, hid⟩
      refine List.mem_map.mpr ⟨r, hr, ?_⟩
      simp [hid]
    · simp [h]
  · intro store rec h
    unfold setDocRecord
    simp [h]

theorem save_upsert_C4_witness :
    (([⟨"r1", 5, "2024-01-01", "WH1", 5000, 0, "Pedidos", "Mañana", "J.Martín", ""⟩]
        : List ProductionRecord).map (fun r => r.id)).Nodup
    ∧ ((saveSequence
          [⟨"r1", 5, "2024-01-01", "WH1", 5000, 0, "Pedidos", "Mañana", "J.Martín", ""⟩]
          [⟨"r1", 6, "2024-01-01", "WH1", 300, 0, "Bio", "Mañana", "J.Martín", ""⟩,
           ⟨"r2", 7, "2024-01-02", "SL2", 800, 1, "NT", "Tarde", "J.Navarro", ""⟩]).map
        (fun r => r.id)).Nodup :=
  ⟨by decide,
   save_upsert_C4.1
     [⟨"r1", 5, "2024-01-01", "WH1", 5000, 0, "Pedidos", "Mañana", "J.Martín", ""⟩]
     [⟨"r1", 6, "2024-01-01", "WH1", 300, 0, "Bio", "Mañana", "J.Martín", ""⟩,
      ⟨"r2", 7, "2024-01-02", "SL2", 800, 1, "NT", "Tarde", "J.Navarro", ""⟩]
     (by decide)⟩

/-- C3 (counterexample): `rename` is a guarded no-op when `oldValue` is the
empty string (JS falsy), so a record whose comment equals the old value `""`
does not acquire the new value, contradicting the unrestricted claim. -/
theorem rename_cascade_counterexample_C3 :
    (renameCustomComment "" "MONTADO" ["Montado"]
        [⟨"r1", 1, "2024-01-01", "WH1", 100, 0, "", "Mañana", "J.Martín", ""⟩]).2
      = [⟨"r1", 1, "2024-01-01", "WH1", 100, 0, "", "Mañana", "J.Martín", ""⟩]
    ∧ ((⟨"r1", 1, "2024-01-01", "WH1", 100, 0, "", "Mañana", "J.Martín", ""⟩
        : ProductionRecord).changesComment = "")
    ∧ ("" : String) ≠ "MONTADO" := by
  refine ⟨by decide, rfl, by decide⟩

/-- C3 (amended): for `rename` calls in which both names are non-empty, every
record whose comment (respectively operator) field equals the old value is
rewritten to the new value, every other record is untouched, and — when the
names differ — the vocabulary afterwards contains the new name and not the old
one, also when the new name already existed (merge).  Calls with an empty old
or new value are no-ops. -/
theorem rename_cascade_C3 (oldName newName : String) (vocab : List String)
    (recs : List ProductionRecord) (h1 : oldName ≠ "") (h2 : newName ≠ "") :
    List.Forall₂ (fun r r' =>
        (r.changesComment = oldName → r' = setComment r newName)
        ∧ (r.changesComment ≠ oldName → r' = r))
      recs (renameCustomComment oldName newName vocab recs).2
    ∧ List.Forall₂ (fun r r' =>
        (r.operator = oldName → r' = setOperatorField r newName)
        ∧ (r.operator ≠ oldName → r' = r))
      recs (renameCustomOperator oldName newName vocab recs).2
    ∧ (oldName ≠ newName →
        newName ∈ (renameCustomComment oldName newName vocab recs).1
        ∧ oldName ∉ (renameCustomComment oldName newName vocab recs).1
        ∧ newName ∈ (renameCustomOperator oldName newName vocab recs).1
        ∧ oldName ∉ (renameCustomOperator oldName newName vocab recs).1) := by
  by_cases heq : oldName = newName
  · have hguard : oldName = "" ∨ newName = "" ∨ oldName = newName := Or.inr (Or.inr heq)
    refine ⟨?_, ?_, ?_⟩
    · show List.Forall₂ _ recs (renameCustomComment oldName newName vocab recs).2
      unfold renameCustomComment
      rw [if_pos hguard]
      rw [List.forall₂_same]
      intro r _
      refine ⟨?_, fun _ => rfl⟩
      intro hc
      cases r
      simp only [setComment] at *
      simp_all
    · show List.Forall₂ _ recs (renameCustomOperator oldName newName vocab recs).2
      unfold renameCustomOperator
      rw [if_pos hguard]
      rw [List.forall₂_same]
      intro r _
      refine ⟨?_, fun _ => rfl⟩
      intro hc
      cases r
      simp only [setOperatorField] at *
      simp_all
    · intro hne
      exact absurd heq hne
  · have hguard : ¬ (oldName = "" ∨ newName = "" ∨ oldName = newName) := by
      push_neg
      exact ⟨h1, h2, heq⟩
    refine ⟨?_, ?_, ?_⟩
    · unfold renameCustomComment
      rw [if_neg hguard]
      rw [List.forall₂_map_right_iff, List.forall₂_same]
      intro r _
      by_cases hc : r.changesComment = oldName
      · simp [hc]
      · simp [hc]
    · unfold renameCustomOperator
      rw [if_neg hguard]
      rw [List.forall₂_map_right_iff, List.forall₂_same]
      intro r _
      by_cases hc : r.operator = oldName
      · simp [hc]
      · simp [hc]
    · intro _
      have hmemnew : ∀ v : List String,
          newName ∈ arrayUnion (arrayRemove v oldName) newName :=
        fun v => (mem_arrayUnion _ _ _).mpr (Or.inr rfl)
      have hmemold : ∀ v : List String,
          oldName ∉ arrayUnion (arrayRemove v oldName) newName := by
        intro v hmem
        rcases (mem_arrayUnion _ _ _).mp hmem with hin | hx
        · exact ((mem_arrayRemove _ _ _).mp hin).2 rfl
        · exact heq hx
      unfold renameCustomComment renameCustomOperator
      rw [if_neg hguard, if_neg hguard]
      exact ⟨hmemnew vocab, hmemold vocab, hmemnew vocab, hmemold vocab⟩

theorem rename_cascade_C3_witness :
    ("Montado" : String) ≠ ""
    ∧ ("MONTADO" : String) ≠ ""
    ∧ (List.Forall₂ (fun r r' =>
          (r.changesComment = "Montado" → r' = setComment r "MONTADO")
          ∧ (r.changesComment ≠ "Montado" → r' = r))
        [⟨"r1", 1, "2024-01-01", "WH1", 100, 0, "Montado", "Mañana", "J.Martín", "Ana"⟩,
         ⟨"r2", 2, "2024-01-02", "SL2", 200, 1, "Bio", "Tarde", "J.Navarro", "Luis"⟩]
        (renameCustomComment "Montado" "MONTADO" ["Montado", "MONTADO"]
          [⟨"r1", 1, "2024-01-01", "WH1", 100, 0, "Montado", "Mañana", "J.Martín", "Ana"⟩,
           ⟨"r2", 2, "2024-01-02", "SL2", 200, 1, "Bio", "Tarde", "J.Navarro", "Luis"⟩]).2
       ∧ List.Forall₂ (fun r r' =>
          (r.operator = "Montado" → r' = setOperatorField r "MONTADO")
          ∧ (r.operator ≠ "Montado" → r' = r))
        [⟨"r1", 1, "2024-01-01", "WH1", 100, 0, "Montado", "Mañana", "J.Martín", "Ana"⟩,
         ⟨"r2", 2, "2024-01-02", "SL2", 200, 1, "Bio", "Tarde", "J.Navarro", "Luis"⟩]
        (renameCustomOperator "Montado" "MONTADO" ["Montado", "MONTADO"]
          [⟨"r1", 1, "2024-01-01", "WH1", 100, 0, "Montado", "Mañana", "J.Martín", "Ana"⟩,
           ⟨"r2", 2, "2024-01-02", "SL2", 200, 1, "Bio", "Tarde", "J.Navarro", "Luis"⟩]).2
       ∧ (("Montado" : String) ≠ "MONTADO" →
          "MONTADO" ∈ (renameCustomComment "Montado" "MONTADO" ["Montado", "MONTADO"]
            [⟨"r1", 1, "2024-01-01", "WH1", 100, 0, "Montado", "Mañana", "J.Martín", "Ana"⟩,
             ⟨"r2", 2, "2024-01-02", "SL2", 200, 1, "Bio", "Tarde", "J.Navarro", "Luis"⟩]).1
          ∧ "Montado" ∉ (renameCustomComment "Montado" "MONTADO" ["Montado", "MONTADO"]
            [⟨"r1", 1, "2024-01-01", "WH1", 100, 0, "Montado", "Mañana", "J.Martín", "Ana"⟩,
             ⟨"r2", 2, "2024-01-02", "SL2", 200, 1, "Bio", "Tarde", "J.Navarro", "Luis"⟩]).1
          ∧ "MONTADO" ∈ (renameCustomOperator "Montado" "MONTADO" ["Montado", "MONTADO"]
            [⟨"r1", 1, "2024-01-01", "WH1", 100, 0, "Montado", "Mañana", "J.Martín", "Ana"⟩,
             ⟨"r2", 2, "2024-01-02", "SL2", 200, 1, "Bio", "Tarde", "J.Navarro", "Luis"⟩]).1
          ∧ "Montado" ∉ (renameCustomOperator "Montado" "MONTADO" ["Montado", "MONTADO"]
            [⟨"r1", 1, "2024-01-01", "WH1", 100, 0, "Montado", "Mañana", "J.Martín", "Ana"⟩,
             ⟨"r2", 2, "2024-01-02", "SL2", 200, 1, "Bio", "Tarde", "J.Navarro", "Luis"⟩]).1)) :=
  ⟨by decide, by decide,
   rename_cascade_C3 "Montado" "MONTADO" ["Montado", "MONTADO"]
     [⟨"r1", 1, "2024-01-01", "WH1", 100, 0, "Montado", "Mañana", "J.Martín", "Ana"⟩,
      ⟨"r2", 2, "2024-01-02", "SL2", 200, 1, "Bio", "Tarde", "J.Navarro", "Luis"⟩]
     (by decide) (by decide)⟩

/-- C9 (counterexample): saving a record whose operator `"Juan"` is already in
the vocabulary while the local cache holds the test name `"Operario 1"` does
not leave the vocabulary unchanged — the cleanup removes the test names. -/
theorem save_vocab_append_counterexample_C9 :
    saveOperatorsEffect ["Juan", "Operario 1"] (some ["Juan", "Operario 1"]) "Juan"
      = Except.ok (some ["Juan"])
    ∧ ("Juan" : String) ∈ (["Juan", "Operario 1"] : List String)
    ∧ (["Juan"] : List String) ≠ ["Juan", "Operario 1"] := by
  refine ⟨rfl, by decide, by decide⟩

/-- C9 (amended): a non-empty comment is appended to the comments vocabulary
exactly when absent (case-sensitive, no normalization) and the list is
unchanged when it is present; the same holds for a non-empty operator provided
the local operators cache contains no test name — when it does and the
operator is not itself a test name, both test names are additionally removed
from the operators vocabulary. -/
theorem save_vocab_append_C9 (c op : String) (l lop cache : List String)
    (hc : c ≠ "") (hop : op ≠ "") :
    (c ∈ l → saveCommentsEffect (some l) c = some l)
    ∧ (c ∉ l → saveCommentsEffect (some l) c = some (l ++ [c]))
    ∧ saveCommentsEffect none c = some [c]
    ∧ ((∀ t ∈ testOperatorsToRemove, t ∉ cache) →
        saveOperatorsEffect cache (some lop) op = Except.ok (some (arrayUnion lop op)))
    ∧ (op ∉ testOperatorsToRemove →
        (∃ t ∈ testOperatorsToRemove, t ∈ cache) →
        saveOperatorsEffect cache (some lop) op
          = Except.ok (some (testOperatorsToRemove.foldl arrayRemove (arrayUnion lop op)))) := by
  refine ⟨?_, ?_, ?_, ?_, ?_⟩
  · intro h
    simp [saveCommentsEffect, hc, arrayUnion, h]
  · intro h
    simp [saveCommentsEffect, hc, arrayUnion, h]
  · simp [saveCommentsEffect, hc]
  · intro hclean
    have hany : cache.any (fun o => decide (o ∈ testOperatorsToRemove)) = false := by
      rw [List.any_eq_false]
      intro o ho
      simp only [decide_eq_true_eq]
      intro hmem
      exact hclean o hmem ho
    by_cases ht : op ∈ testOperatorsToRemove
    · simp [saveOperatorsEffect, hop, ht]
    · simp [saveOperatorsEffect, hop, ht, hany]
  · intro hnt hex
    rcases hex with ⟨t, ht, htc⟩
    have hany : cache.any (fun o => decide (o ∈ testOperatorsToRemove)) = true :=
      List.any_eq_true.mpr ⟨t, htc, by simp [ht]⟩
    simp [saveOperatorsEffect, hop, hnt, hany]

theorem save_vocab_append_C9_witness :
    ("Bio" : String) ≠ ""
    ∧ ("Juan" : String) ≠ ""
    ∧ ((("Bio" : String) ∈ (["NT"] : List String) →
          saveCommentsEffect (some ["NT"]) "Bio" = some ["NT"])
       ∧ (("Bio" : String) ∉ (["NT"] : List String) →
          saveCommentsEffect (some ["NT"]) "Bio" = some (["NT"] ++ ["Bio"]))
       ∧ saveCommentsEffect none "Bio" = some ["Bio"]
       ∧ ((∀ t ∈ testOperatorsToRemove, t ∉ (["Operario 1"] : List String)) →
          saveOperatorsEffect ["Operario 1"] (some ["NT"]) "Juan"
            = Except.ok (some (arrayUnion ["NT"] "Juan")))
       ∧ (("Juan" : String) ∉ testOperatorsToRemove →
          (∃ t ∈ testOperatorsToRemove, t ∈ (["Operario 1"] : List String)) →
          saveOperatorsEffect ["Operario 1"] (some ["NT"]) "Juan"
            = Except.ok (some (testOperatorsToRemove.foldl arrayRemove
                (arrayUnion ["NT"] "Juan"))))) :=
  ⟨by decide, by decide,
   save_vocab_append_C9 "Bio" "Juan" ["NT"] ["NT"] ["Operario 1"] (by decide) (by decide)⟩

/-- C10: saving a record with a non-empty, non-test operator while the local
operators cache holds a test name removes both test names from the operators
vocabulary (so `save` is not append-only on it) while the saved operator
remains present; saving with a test-name operator adds that test name back. -/
theorem save_test_cleanup_C10 (op : String) (cache lop : List String)
    (h1 : op ≠ "") (h2 : op ∉ testOperatorsToRemove)
    (h3 : ∃ t ∈ testOperatorsToRemove, t ∈ cache) :
    saveOperatorsEffect cache (some lop) op
      = Except.ok (some (testOperatorsToRemove.foldl arrayRemove (arrayUnion lop op)))
    ∧ "Operario 1" ∉ testOperatorsToRemove.foldl arrayRemove (arrayUnion lop op)
    ∧ "Operario 2" ∉ testOperatorsToRemove.foldl arrayRemove (arrayUnion lop op)
    ∧ op ∈ testOperatorsToRemove.foldl arrayRemove (arrayUnion lop op)
    ∧ (∀ t ∈ testOperatorsToRemove,
        saveOperatorsEffect cache (some lop) t = Except.ok (some (arrayUnion lop t))
        ∧ t ∈ arrayUnion lop t) := by
  have hfold : testOperatorsToRemove.foldl arrayRemove (arrayUnion lop op)
      = arrayRemove (arrayRemove (arrayUnion lop op) "Operario 1") "Operario 2" := rfl
  have hne1 : op ≠ "Operario 1" := by
    intro h; exact h2 (by rw [h]; decide)
  have hne2 : op ≠ "Operario 2" := by
    intro h; exact h2 (by rw [h]; decide)
  refine ⟨?_, ?_, ?_, ?_, ?_⟩
  · rcases h3 with ⟨t, ht, htc⟩
    have hany : cache.any (fun o => decide (o ∈ testOperatorsToRemove)) = true :=
      List.any_eq_true.mpr ⟨t, htc, by simp [ht]⟩
    simp [saveOperatorsEffect, h1, h2, hany]
  · rw [hfold]
    intro hmem
    exact ((mem_arrayRemove _ _ _).mp ((mem_arrayRemove _ _ _).mp hmem).1).2 rfl
  · rw [hfold]
    intro hmem
    exact ((mem_arrayRemove _ _ _).mp hmem).2 rfl
  · rw [hfold]
    rw [mem_arrayRemove, mem_arrayRemove, mem_arrayUnion]
    exact ⟨⟨Or.inr rfl, hne1⟩, hne2⟩
  · intro t ht
    have ht2 : t = "Operario 1" ∨ t = "Operario 2" := by
      simpa [testOperatorsToRemove] using ht
    have htne : t ≠ "" := by
      rcases ht2 with rfl | rfl <;> decide
    refine ⟨?_, (mem_arrayUnion _ _ _).mpr (Or.inr rfl)⟩
    simp [saveOperatorsEffect, htne, ht]

theorem save_test_cleanup_C10_witness :
    ("Juan" : String) ≠ ""
    ∧ ("Juan" : String) ∉ testOperatorsToRemove
    ∧ (∃ t ∈ testOperatorsToRemove, t ∈ (["Operario 1"] : List String))
    ∧ (saveOperatorsEffect ["Operario 1"] (some ["Juan"]) "Juan"
        = Except.ok (some (testOperatorsToRemove.foldl arrayRemove (arrayUnion ["Juan"] "Juan")))
       ∧ "Operario 1" ∉ testOperatorsToRemove.foldl arrayRemove (arrayUnion ["Juan"] "Juan")
       ∧ "Operario 2" ∉ testOperatorsToRemove.foldl arrayRemove (arrayUnion ["Juan"] "Juan")
       ∧ ("Juan" : String) ∈ testOperatorsToRemove.foldl arrayRemove (arrayUnion ["Juan"] "Juan")
       ∧ (∀ t ∈ testOperatorsToRemove,
           saveOperatorsEffect ["Operario 1"] (some ["Juan"]) t
             = Except.ok (some (arrayUnion ["Juan"] t))
           ∧ t ∈ arrayUnion ["Juan"] t)) :=
  ⟨by decide, by decide, by decide,
   save_test_cleanup_C10 "Juan" ["Operario 1"] ["Juan"] (by decide) (by decide) (by decide)⟩

theorem lookup_cons {β : Type} (k k' : String) (b : β) (rest : List (String × β)) :
    List.lookup k ((k', b) :: rest) = if k = k' then some b else List.lookup k rest := by
  by_cases h : k = k'
  · simp [List.lookup, h]
  · have hb : (k == k') = false := beq_eq_false_iff_ne.mpr h
    simp [List.lookup, hb, h]

theorem lookup_none_not_mem {β : Type} (k : String) (l : List (String × β))
    (h : List.lookup k l = none) : k ∉ l.map Prod.fst := by
  induction l with
  | nil => simp
  | cons kv rest ih =>
    rcases kv with ⟨k', b⟩
    rw [lookup_cons] at h
    by_cases hk : k = k'
    · simp [hk] at h
    · rw [if_neg hk] at h
      simp only [List.map_cons, List.mem_cons]
      rintro (hkk | hmem)
      · exact hk hkk
      · exact ih h hmem

theorem lookup_append_single {β : Type} (key : String) (b : β) (gs : List (String × β))
    (k : String) :
    List.lookup k (gs ++ [(key, b)])
      = match List.lookup k gs with
        | some v => some v
        | none => if k = key then some b else none := by
  induction gs with
  | nil =>
    show List.lookup k ((key, b) :: []) = _
    rw [lookup_cons]
    simp [List.lookup]
  | cons kv rest ih =>
    rcases kv with ⟨k', v⟩
    rw [List.cons_append, lookup_cons, lookup_cons]
    by_cases hk : k = k'
    · simp [hk]
    · simp only [if_neg hk]
      exact ih

theorem lookup_map_update {β : Type} (key : String) (f : β → β) (gs : List (String × β))
    (k : String) :
    List.lookup k (gs.map (fun kv => if kv.1 = key then (kv.1, f kv.2) else kv))
      = if k = key then (List.lookup k gs).map f else List.lookup k gs := by
  induction gs with
  | nil => by_cases h : k = key <;> simp [List.lookup, h]
  | cons kv rest ih =>
    rcases kv with ⟨k', b⟩
    simp only [List.map_cons]
    have hhead : (if (k', b).1 = key then ((k', b).1, f (k', b).2) else (k', b))
        = (k', if k' = key then f b else b) := by
      by_cases h : k' = key
      · simp [h]
      · simp [h]
    rw [hhead, lookup_cons, lookup_cons, ih]
    by_cases hk : k = k'
    · subst hk
      by_cases hkey : k = key
      · simp [hkey]
      · simp [hkey]
    · by_cases hkey : k = key
      · have hk2 : ¬ key = k' := fun h => hk (hkey.trans h)
        simp [hk, hkey, hk2]
      · simp [hk, hkey]

theorem updateGroup_count (canon : Option String) (g : IncidentBucket) :
    (updateGroup canon g).count = g.count + 1 := by
  cases canon with
  | none => rfl
  | some c =>
    unfold updateGroup
    by_cases h : c = ""
    · simp [h]
    · simp [h]

theorem lookup_addToGroups (avail : List String) (gs : List (String × IncidentBucket))
    (raw k : String) :
    List.lookup k (addToGroups avail gs raw)
      = if k = normalizeKey raw then
          match List.lookup (normalizeKey raw) gs with
          | none => some ⟨1, jsOrElse (canonicalFor avail (normalizeKey raw)) raw⟩
          | some b => some (updateGroup (canonicalFor avail (normalizeKey raw)) b)
        else List.lookup k gs := by
  unfold addToGroups
  cases hl : List.lookup (normalizeKey raw) gs with
  | none =>
    simp only [hl]
    rw [lookup_append_single]
    by_cases hk : k = normalizeKey raw
    · subst hk
      simp [hl]
    · simp only [if_neg hk]
      cases List.lookup k gs <;> simp [hk]
  | some b =>
    simp only [hl]
    rw [lookup_map_update]
    by_cases hk : k = normalizeKey raw
    · subst hk
      simp [hl]
    · simp [hk]

theorem keys_addToGroups (avail : List String) (gs : List (String × IncidentBucket))
    (raw : String) :
    (addToGroups avail gs raw).map Prod.fst
      = if (List.lookup (normalizeKey raw) gs).isSome
        then gs.map Prod.fst
        else gs.map Prod.fst ++ [normalizeKey raw] := by
  unfold addToGroups
  cases hl : List.lookup (normalizeKey raw) gs with
  | none => simp [hl]
  | some b =>
    simp only [hl, Option.isSome_some, if_true, List.map_map]
    apply List.map_congr_left
    intro kv _
    by_cases h : kv.1 = normalizeKey raw
    · simp [h]
    · simp [h]

theorem nodup_keys_addToGroups (avail : List String) (gs : List (String × IncidentBucket))
    (raw : String) (h : (gs.map Prod.fst).Nodup) :
    ((addToGroups avail gs raw).map Prod.fst).Nodup := by
  rw [keys_addToGroups]
  cases hl : List.lookup (normalizeKey raw) gs with
  | some b => simp [h]
  | none =>
    have hnotin := lookup_none_not_mem (normalizeKey raw) gs hl
    simp [List.nodup_append, h, hnotin]

theorem bucketCount_addToGroups (avail : List String) (gs : List (String × IncidentBucket))
    (raw k : String) :
    bucketCount (addToGroups avail gs raw) k
      = if k = normalizeKey raw then bucketCount gs k + 1 else bucketCount gs k := by
  unfold bucketCount
  rw [lookup_addToGroups]
  by_cases hk : k = normalizeKey raw
  · subst hk
    cases hl : List.lookup (normalizeKey raw) gs with
    | none => simp [hl]
    | some b => simp [hl, updateGroup_count]
  · simp [hk]

theorem incidentsFold_nodup (avail : List String) :
    ∀ (recs : List ProductionRecord) (gs : List (String × IncidentBucket)),
      (gs.map Prod.fst).Nodup →
      (((recs.foldl (stepIncidents avail) gs)).map Prod.fst).Nodup := by
  intro recs
  induction recs with
  | nil => intro gs h; exact h
  | cons r rest ih =>
    intro gs h
    rw [List.foldl_cons]
    apply ih
    unfold stepIncidents
    by_cases hv : validComment r
    · simp only [hv, if_true]
      exact nodup_keys_addToGroups avail gs (jsTrim r.changesComment) h
    · simp [hv, h]

theorem incidentsFold_count (avail : List String) :
    ∀ (recs : List ProductionRecord) (gs : List (String × IncidentBucket)) (k : String),
      bucketCount (recs.foldl (stepIncidents avail) gs) k
        = bucketCount gs k
          + (recs.filter (fun r =>
              validComment r && (normalizeKey (jsTrim r.changesComment) == k))).length := by
  intro recs
  induction recs with
  | nil => intro gs k; simp
  | cons r rest ih =>
    intro gs k
    rw [List.foldl_cons, ih, List.filter_cons]
    by_cases hp : (validComment r && (normalizeKey (jsTrim r.changesComment) == k)) = true
    · have h12 : validComment r = true ∧ normalizeKey (jsTrim r.changesComment) = k := by
        simpa using hp
      have hv : validComment r = true := h12.1
      have hkey : normalizeKey (jsTrim r.changesComment) = k := h12.2
      have hstep : bucketCount (stepIncidents avail gs r) k = bucketCount gs k + 1 := by
        unfold stepIncidents
        rw [if_pos hv, bucketCount_addToGroups, if_pos hkey.symm]
      rw [hstep, if_pos hp, List.length_cons]
      omega
    · have hstep : bucketCount (stepIncidents avail gs r) k = bucketCount gs k := by
        unfold stepIncidents
        by_cases hv : validComment r = true
        · rw [if_pos hv, bucketCount_addToGroups]
          have hkey : ¬ k = normalizeKey (jsTrim r.changesComment) := by
            intro h
            apply hp
            rw [hv]
            simp [h]
          rw [if_neg hkey]
        · rw [if_neg hv]
      rw [hstep, if_neg hp]

theorem incidentsFold_display (avail : List String) :
    ∀ (recs : List ProductionRecord) (gs : List (String × IncidentBucket)),
      (∀ k b, List.lookup k gs = some b →
        ∀ c, canonicalFor avail k = some c → c ≠ "" → b.displayName = c) →
      (∀ k b, List.lookup k (recs.foldl (stepIncidents avail) gs) = some b →
        ∀ c, canonicalFor avail k = some c → c ≠ "" → b.displayName = c) := by
  intro recs
  induction recs with
  | nil => intro gs h; exact h
  | cons r rest ih =>
    intro gs h
    rw [List.foldl_cons]
    apply ih
    unfold stepIncidents
    by_cases hv : validComment r
    · simp only [hv, if_true]
      intro k b hlk c hcanon hcne
      rw [lookup_addToGroups] at hlk
      by_cases hk : k = normalizeKey (jsTrim r.changesComment)
      · rw [if_pos hk] at hlk
        subst hk
        cases hl : List.lookup (normalizeKey (jsTrim r.changesComment)) gs with
        | none =>
          rw [hl] at hlk
          have hb : b = ⟨1, jsOrElse (canonicalFor avail
              (normalizeKey (jsTrim r.changesComment))) (jsTrim r.changesComment)⟩ := by
            injection hlk with h'
            exact h'.symm
          rw [hb, hcanon]
          simp [jsOrElse, hcne]
        | some b0 =>
          rw [hl] at hlk
          have hb : b = updateGroup (canonicalFor avail
              (normalizeKey (jsTrim r.changesComment))) b0 := by
            injection hlk with h'
            exact h'.symm
          rw [hb, hcanon]
          simp [updateGroup, hcne]
      · rw [if_neg hk] at hlk
        exact h k b hlk c hcanon hcne
    · simp only [hv, if_false, Bool.false_eq_true]
      exact h

/-- C6 (counterexample): the raw comments `"á"` and `"Á"` are non-empty and
equal after diacritic stripping and case folding, yet they aggregate into zero
buckets — the analytics skips comments whose trimmed text has length ≤ 1 — so
"exactly one bucket" fails as stated. -/
theorem canonicalization_counterexample_C6 :
    normalizeKey "á" = normalizeKey "Á"
    ∧ ("á" : String) ≠ ""
    ∧ ("Á" : String) ≠ ""
    ∧ incidentsGroups ["a"]
        [⟨"r1", 1, "2024-01-01", "WH1", 100, 0, "á", "Mañana", "J.Martín", ""⟩,
         ⟨"r2", 2, "2024-01-01", "WH1", 100, 0, "Á", "Tarde", "J.Martín", ""⟩] = [] := by
  refine ⟨by decide, by decide, by decide, by decide⟩

/-- C6 (amended): among records whose trimmed comment is longer than one
character, raw comments with the same normalized key (diacritic-stripped,
case-folded) aggregate into exactly one bucket — the group keys are
duplicate-free and each bucket's count equals the number of such records
producing its key — and the bucket is labeled with the exact spelling of the
(last) vocabulary entry normalizing to that key whenever one exists and is
non-empty.  Comments that are empty or whose trimmed text has length ≤ 1 are
excluded from the analytics entirely.  The aggregation is a pure function of
the record list and the vocabulary; no record is mutated. -/
theorem canonicalization_C6 (avail : List String) (recs : List ProductionRecord) :
    ((incidentsGroups avail recs).map Prod.fst).Nodup
    ∧ (∀ k, bucketCount (incidentsGroups avail recs) k
        = (recs.filter (fun r =>
            validComment r && (normalizeKey (jsTrim r.changesComment) == k))).length)
    ∧ (∀ k b, List.lookup k (incidentsGroups avail recs) = some b →
        ∀ c, canonicalFor avail k = some c → c ≠ "" → b.displayName = c) := by
  refine ⟨?_, ?_, ?_⟩
  · exact incidentsFold_nodup avail recs [] (by simp)
  · intro k
    have := incidentsFold_count avail recs [] k
    simpa [bucketCount, List.lookup] using this
  · exact incidentsFold_display avail recs []
      (by intro k b hlk; simp [List.lookup] at hlk)

theorem canonicalization_C6_witness :
    ((incidentsGroups ["Montado"]
        [⟨"r1", 1, "2024-01-01", "WH1", 100, 0, "Montado", "Mañana", "J.Martín", ""⟩,
         ⟨"r2", 2, "2024-01-01", "WH1", 100, 0, "montado", "Tarde", "J.Martín", ""⟩,
         ⟨"r3", 3, "2024-01-02", "SL2", 100, 0, "Montádo", "Noche", "J.Navarro", ""⟩]).map
      Prod.fst).Nodup
    ∧ (∀ k, bucketCount (incidentsGroups ["Montado"]
        [⟨"r1", 1, "2024-01-01", "WH1", 100, 0, "Montado", "Mañana", "J.Martín", ""⟩,
         ⟨"r2", 2, "2024-01-01", "WH1", 100, 0, "montado", "Tarde", "J.Martín", ""⟩,
         ⟨"r3", 3, "2024-01-02", "SL2", 100, 0, "Montádo", "Noche", "J.Navarro", ""⟩]) k
        = (([⟨"r1", 1, "2024-01-01", "WH1", 100, 0, "Montado", "Mañana", "J.Martín", ""⟩,
             ⟨"r2", 2, "2024-01-01", "WH1", 100, 0, "montado", "Tarde", "J.Martín", ""⟩,
             ⟨"r3", 3, "2024-01-02", "SL2", 100, 0, "Montádo", "Noche", "J.Navarro", ""⟩]
            : List ProductionRecord).filter (fun r =>
              validComment r && (normalizeKey (jsTrim r.changesComment) == k))).length)
    ∧ (∀ k b, List.lookup k (incidentsGroups ["Montado"]
        [⟨"r1", 1, "2024-01-01", "WH1", 100, 0, "Montado", "Mañana", "J.Martín", ""⟩,
         ⟨"r2", 2, "2024-01-01", "WH1", 100, 0, "montado", "Tarde", "J.Martín", ""⟩,
         ⟨"r3", 3, "2024-01-02", "SL2", 100, 0, "Montádo", "Noche", "J.Navarro", ""⟩]) = some b →
        ∀ c, canonicalFor ["Montado"] k = some c → c ≠ "" → b.displayName = c) :=
  canonicalization_C6 ["Montado"]
    [⟨"r1", 1, "2024-01-01", "WH1", 100, 0, "Montado", "Mañana", "J.Martín", ""⟩,
     ⟨"r2", 2, "2024-01-01", "WH1", 100, 0, "montado", "Tarde", "J.Martín", ""⟩,
     ⟨"r3", 3, "2024-01-02", "SL2", 100, 0, "Montádo", "Noche", "J.Navarro", ""⟩]

end RegistroJefes
